import Mathlib

/-!
# Verification of the `pcollections` persistent-collection library

This file shallowly embeds the data model and operations of the
`pcollections` Python package (`pcollections/_list.py`, `_set.py`,
`_dict.py`, `_lazy.py`) and proves or refutes the frozen claims about it.

Conventions of the embedding:

* Python scalar values (list elements, set elements, dict keys and dict
  values) are modelled as `Int`; Python's `hash` is an explicit parameter
  `hash : Int → Int` of every operation that consults it, so that hash
  collisions can be exercised.
* The PHAMT / THAMT primitive (the external `phamt` dependency, imported by
  the sources) is modelled by its observable contract from spec section 4.1:
  a finite integer-keyed map with `get` / `assoc` / `dissoc` / `len` and
  iteration in unsigned-64-bit key order (non-negative keys ascending first,
  then negative keys ascending).  It is represented as an association list
  kept sorted in that key order; a THAMT's in-place mutation is modelled by
  explicit state passing of the same representation.
* Python raising an exception is modelled with `Except PyErr`; a Python
  `while` loop whose source may fail to terminate is modelled with an
  explicit fuel parameter, `none` meaning "the loop is still running after
  `fuel` iterations".
* Python's `is` (pointer identity) between scalar values is modelled as
  equality on `Int`; pointer identity between containers is visible in the
  embedding as the function returning its argument (or a stored
  back-reference) itself rather than a rebuilt structure.
-/

/-- The kinds of Python exceptions the embedded code can raise.
`raisedValue v` models `raise d` applied to a non-exception value `d`
(which CPython surfaces as a `TypeError`, losing `d`). -/
inductive PyErr
  | indexError
  | keyError (k : Int)
  | attributeError
  | unboundLocalError
  | mutatedDuringIteration
  | raisedValue (v : Int)
  deriving DecidableEq, Repr

deriving instance DecidableEq for Except

/-- Python's `x or d` for an optional integer `x`: `None` and `0` are falsy,
so both select the default `d`.  Used by `plist.__getitem__` on slices
(`k.start or 0`, `k.stop or n`, `k.step or 1`). -/
def pyOr (x : Option Int) (d : Int) : Int :=
  match x with
  | none => d
  | some v => if v = 0 then d else v

/-- Auxiliary recursion for `rangeStep`, with explicit fuel. -/
def rangeStepAux (a b step : Int) : Nat → List Int
  | 0 => []
  | fuel+1 =>
    if (0 < step ∧ a < b) ∨ (step < 0 ∧ b < a) then
      a :: rangeStepAux (a + step) b step fuel
    else []

/-- Python's `range(a, b, step)` as a list (`step ≠ 0`).  Since `|step| ≥ 1`,
the fuel `(b - a).natAbs + 1` always suffices. -/
def rangeStep (a b step : Int) : List Int :=
  rangeStepAux a b step ((b - a).natAbs + 1)

/-- Python's `range(a, b)`. -/
def rangeList (a b : Int) : List Int :=
  rangeStep a b 1

/-!
## The PHAMT primitive

Modelled from the spec (section 4.1): the `phamt` package is an external
dependency of the sources (`from phamt import PHAMT, THAMT`), so only its
observable contract is embedded: an immutable map from 64-bit integers to
values with `get`, `assoc`, `dissoc`, O(1) `len`, and iteration in
unsigned (two's-complement-reinterpreted) key order.
-/

/-- The PHAMT's iteration order on signed 64-bit keys, which it walks as
unsigned bit strings: non-negative keys come first in ascending order, then
negative keys in ascending order.  (On the 64-bit key range this is exactly
`(a mod 2^64) < (b mod 2^64)`; this piecewise form is injective on all of
`Int`.) -/
def keyLt (a b : Int) : Bool :=
  if 0 ≤ a then (if 0 ≤ b then decide (a < b) else true)
  else (if 0 ≤ b then false else decide (a < b))

/-- A persistent HAMT: an association list sorted by `keyLt`. -/
abbrev PH (α : Type) := List (Int × α)

namespace PH

/-- `PHAMT.get(k)` / `phamt[k]`-style lookup. -/
def get {α : Type} : PH α → Int → Option α
  | [], _ => none
  | (k, v) :: rest, key => if key = k then some v else get rest key

/-- Lookup that raises `KeyError` when the key is absent (`phamt[k]`). -/
def getE {α : Type} (h : PH α) (k : Int) : Except PyErr α :=
  match h.get k with
  | some v => .ok v
  | none => .error (.keyError k)

/-- `PHAMT.assoc(k, v)` (and `thamt[k] = v`): insert or replace, keeping the
list sorted by `keyLt`. -/
def assoc {α : Type} : PH α → Int → α → PH α
  | [], key, val => [(key, val)]
  | (k, v) :: rest, key, val =>
    if key = k then (key, val) :: rest
    else if keyLt key k then (key, val) :: (k, v) :: rest
    else (k, v) :: assoc rest key val

/-- `PHAMT.dissoc(k)` (and `del thamt[k]`): remove the key if present. -/
def dissoc {α : Type} : PH α → Int → PH α
  | [], _ => []
  | (k, v) :: rest, key => if key = k then rest else (k, v) :: dissoc rest key

/-- `len(phamt)`. -/
def len {α : Type} (h : PH α) : Nat := h.length

end PH

/-!
## The persistent list `plist` (`pcollections/_list.py`)

A `plist` holds `_phamt` (slot `i` of the list lives at HAMT key
`_start + i`) and `_start`.  The `_hashcode` cache is omitted: it is
`None` at construction and only memoizes `__hash__`, which no claim
touches.
-/

structure PList (α : Type) where
  phamt : PH α
  start : Int
  deriving DecidableEq, Repr

namespace PList

/-- The canonical empty plist, `plist.empty` (`PHAMT.empty`, start 0). -/
def empty {α : Type} : PList α := ⟨[], 0⟩

/-- `plist.__iter__`: if all keys have one sign the PHAMT's own order is
already list order; otherwise the negative-keyed head elements are fetched
by lookup and chained before the first `n + start` PHAMT entries. -/
def toList {α : Type} (p : PList α) : List α :=
  let n : Int := p.phamt.len
  let st := p.start
  if st ≥ 0 ∨ n + st < 0 then p.phamt.map (·.2)
  else
    (rangeList st 0).filterMap (fun k => p.phamt.get k)
      ++ (p.phamt.map (·.2)).take (n + st).toNat

/-- `plist.__getitem__` with an integer index: negative indices wrap once,
out-of-range fails with `IndexError`. -/
def getItem {α : Type} (p : PList α) (k : Int) : Except PyErr α :=
  let n : Int := p.phamt.len
  if k ≥ n ∨ k < -n then .error .indexError
  else
    let k := if k < 0 then k + n else k
    p.phamt.getE (k + p.start)

/-- `plist.__getitem__` with a slice `[kstart:kstop:kstep]`, exactly as the
source computes it: the components default through Python's `or` (so an
explicit `0` endpoint is replaced by the default!), endpoints are clamped,
shifted by `_start`, and the `range(start, stop, step)` positions are copied
into a fresh list with origin 0. -/
def getSlice {α : Type} (p : PList α) (kstart kstop kstep : Option Int) :
    Except PyErr (PList α) :=
  let st := p.start
  let phamt := p.phamt
  let n : Int := phamt.len
  let start := pyOr kstart 0
  let stop := pyOr kstop n
  let step := pyOr kstep 1
  let start := if start ≤ -n then 0
    else if start < 0 then start + n
    else if start > n then n
    else start
  let stop := if stop ≤ -n then 0
    else if stop < 0 then stop + n
    else if stop > n then n
    else stop
  let start := if st ≠ 0 then start + st else start
  let stop := if st ≠ 0 then stop + st else stop
  do
    let th ← (rangeStep start stop step).enum.foldlM
      (fun (th : PH α) (ij : Nat × Int) => do
        let v ← phamt.getE ij.2
        pure (th.assoc (ij.1 : Int) v))
      ([] : PH α)
    pure (⟨th, 0⟩ : PList α)

/-- `plist.delete(index)`: remove slot `index`, shifting whichever side the
source chooses (`n - index ≤ index` shifts the right side in place;
otherwise the left side is shifted up and `start` is incremented). -/
def delete {α : Type} (p : PList α) (index : Int) : Except PyErr (PList α) :=
  let phamt := p.phamt
  let n : Int := phamt.len
  let st := p.start
  if n = 0 then .error .indexError
  else if index ≥ n ∨ index < -n then .error .indexError
  else
    let index := if index < 0 then index + n else index
    if index = 0 then
      if n = 1 then .ok PList.empty
      else .ok ⟨phamt.dissoc st, st + 1⟩
    else if index = n - 1 then .ok ⟨phamt.dissoc (st + index), st⟩
    else if n - index ≤ index then do
      let th ← (rangeList (index + st) (n + st - 1)).foldlM
        (fun (th : PH α) ii => do
          let v ← phamt.getE (ii + 1)
          pure (th.assoc ii v))
        phamt
      pure (⟨th.dissoc (n + st - 1), st⟩ : PList α)
    else do
      let th ← (rangeList st (index + st)).foldlM
        (fun (th : PH α) ii => do
          let v ← phamt.getE ii
          pure (th.assoc (ii + 1) v))
        phamt
      pure (⟨th.dissoc st, st + 1⟩ : PList α)

/-- `plist(range(n))`: build by consecutive writes at keys `0, 1, …`
(the iterable branch of `plist.__new__`). -/
def ofRange (n : Nat) : PList Int :=
  ⟨(rangeList 0 n).foldl (fun th ii => th.assoc ii ii) ([] : PH Int), 0⟩

end PList

/-!
## The transient list `tlist`

Attributes `_thamt`, `_start`, `_orig`; `plist.transient` passes itself as
`orig`, and `tlist.persistent` returns `orig` (pointer identity) when it is
still set.
-/

structure TList (α : Type) where
  thamt : PH α
  start : Int
  orig : Option (PList α)
  deriving DecidableEq, Repr

/-- `plist.transient()`: wrap the PHAMT in a THAMT (same contents) and
remember `self` as `orig`. -/
def plistTransient {α : Type} (p : PList α) : TList α :=
  ⟨p.phamt, p.start, some p⟩

/-- `tlist.persistent()`: the canonical empty value when empty, otherwise
`orig` itself when no mutation has cleared it, otherwise a frozen copy. -/
def tlistPersistent {α : Type} (t : TList α) : PList α :=
  if t.thamt.len = 0 then PList.empty
  else
    match t.orig with
    | none => ⟨t.thamt, t.start⟩
    | some p => p

/-!
## The persistent set `pset` (`pcollections/_set.py`)

Attributes `_els` (slot → `(value, next_slot | None)`), `_idx`
(`hash(value)` → first slot of the collision chain), `_top` (next free
slot).  The `_hashcode` cache is again omitted.
-/

structure Pset where
  els : PH (Int × Option Int)
  idx : PH Int
  top : Int
  deriving DecidableEq, Repr

/-- The canonical empty pset (`pset.empty`). -/
def Pset.empty : Pset := ⟨[], [], 0⟩

/-- The result of walking a set collision chain looking for `obj`
(the `while ii is not None` loop of `pset.add` / `tset.add`):
either an equal element was found, or the loop ran off the end of the
chain with `(ii_prev, x_prev)` holding the last slot visited. -/
inductive ChainScan
  | found
  | ended (iiPrev : Int) (xPrev : Int)
  deriving DecidableEq, Repr

/-- The chain walk of `pset.add` lines 93–100 (also `tset.add` lines
219–227), which does advance `ii = ii_next` each iteration.  `none` means
the fuel ran out. -/
def chainScan (els : PH (Int × Option Int)) (obj : Int) :
    Int → Nat → Option (Except PyErr ChainScan)
  | _, 0 => none
  | ii, fuel+1 =>
    match els.get ii with
    | none => some (.error (.keyError ii))
    | some (x, iiNext) =>
      if obj = x then some (.ok .found)
      else
        match iiNext with
        | none => some (.ok (.ended ii x))
        | some ii2 => chainScan els obj ii2 fuel

/-- `pset.add(obj)` (source lines 81–105).  In the collision branch the
source assigns `new_els` after the chain walk but never assigns `new_idx`
(only the `ii is None` branch does), so the final
`self._new(new_els, new_idx, self._top + 1)` reads an unbound local and
raises `UnboundLocalError`. -/
def psetAdd (hash : Int → Int) (s : Pset) (obj : Int) (fuel : Nat) :
    Option (Except PyErr Pset) :=
  let h := hash obj
  match s.idx.get h with
  | none =>
    some (.ok ⟨s.els.assoc s.top (obj, none), s.idx.assoc h s.top, s.top + 1⟩)
  | some ii0 =>
    match chainScan s.els obj ii0 fuel with
    | none => none
    | some (.error e) => some (.error e)
    | some (.ok .found) => some (.ok s)
    | some (.ok (.ended _ _)) => some (.error .unboundLocalError)

/-!
## The transient set `tset`

`__slots__ = ("_els", "_idx", "_top", "_orig")`: a `tset` has *no*
`_version` attribute, and `tset.__iter__` (source lines 205–206) is
`map(lambda u: u[1][0], self._els)` with no check of any counter.
-/

structure Tset where
  els : PH (Int × Option Int)
  idx : PH Int
  top : Int
  orig : Option Pset
  deriving DecidableEq, Repr

/-- `pset.transient()`: share the HAMTs, remember `self` as `orig`. -/
def psetTransient (s : Pset) : Tset :=
  ⟨s.els, s.idx, s.top, some s⟩

/-- `tset.persistent()`: the canonical empty when empty; a frozen copy when
`orig` was cleared; otherwise `orig` itself. -/
def tsetPersistent (t : Tset) : Pset :=
  if t.els.len = 0 then Pset.empty
  else
    match t.orig with
    | none => ⟨t.els, t.idx, t.top⟩
    | some s => s

/-- `tset.add(obj)` (source lines 207–233): in-place mutation, modelled by
returning the updated `Tset`.  Unlike `pset.add` this branch is complete:
the tail of the chain is patched and `_idx` needs no change.  No version
counter exists to bump. -/
def tsetAdd (hash : Int → Int) (t : Tset) (obj : Int) (fuel : Nat) :
    Option (Except PyErr Tset) :=
  let h := hash obj
  match t.idx.get h with
  | none =>
    some (.ok ⟨t.els.assoc t.top (obj, none), t.idx.assoc h t.top, t.top + 1, none⟩)
  | some ii0 =>
    match chainScan t.els obj ii0 fuel with
    | none => none
    | some (.error e) => some (.error e)
    | some (.ok .found) => some (.ok t)
    | some (.ok (.ended iiPrev xPrev)) =>
      some (.ok ⟨(t.els.assoc t.top (obj, none)).assoc iiPrev (xPrev, some t.top),
                 t.idx, t.top + 1, none⟩)

/-- `tset.addall(iterable)`: repeated `add`, as used by `tset.__new__` for
a plain iterable argument. -/
def tsetAddAll (hash : Int → Int) (fuel : Nat) :
    Tset → List Int → Option (Except PyErr Tset)
  | t, [] => some (.ok t)
  | t, x :: rest =>
    match tsetAdd hash t x fuel with
    | none => none
    | some (.error e) => some (.error e)
    | some (.ok t') => tsetAddAll hash fuel t' rest

/-- One step of iterating a `tset` (`tset.__iter__`, source lines 205–206:
`map(lambda u: u[1][0], self._els)`).  The iterator state is the position
in the element HAMT.  The source body contains no version check and no
`raise`, so no error constructor is reachable; the `Except` in the result
type only makes that absence statable. -/
def tsetIterNext (t : Tset) (pos : Nat) : Except PyErr (Option (Int × Nat)) :=
  match t.els.get? pos with
  | none => .ok none
  | some u => .ok (some (u.2.1, pos + 1))

/-!
## The persistent dict `pdict` (`pcollections/_dict.py`)

Same shape as the set with entries `((key, value), next_slot | None)`.
-/

structure PDict where
  els : PH ((Int × Int) × Option Int)
  idx : PH Int
  top : Int
  deriving DecidableEq, Repr

/-- The canonical empty pdict (`pdict.empty`). -/
def PDict.empty : PDict := ⟨[], [], 0⟩

/-- Result of the *advancing* dict chain walk (`(kv, ii) = self._els[ii]`,
as in `pdict.get`, `pdict.__getitem__`, `tdict.__setitem__`, `tdict.get`):
either the key was found in slot `ii` with value `v` and successor
`iiNext`, or the chain ended with `(ii_prev, kv_prev)` the last entry. -/
inductive DChainScan
  | found (ii : Int) (v : Int) (iiNext : Option Int)
  | ended (iiPrev : Int) (kvPrev : Int × Int)
  deriving DecidableEq, Repr

/-- The advancing chain walk over dict entries. `none` = fuel ran out. -/
def dchainScan (els : PH ((Int × Int) × Option Int)) (key : Int) :
    Int → Nat → Option (Except PyErr DChainScan)
  | _, 0 => none
  | ii, fuel+1 =>
    match els.get ii with
    | none => some (.error (.keyError ii))
    | some (kv, iiNext) =>
      if key = kv.1 then some (.ok (.found ii kv.2 iiNext))
      else
        match iiNext with
        | none => some (.ok (.ended ii kv))
        | some ii2 => dchainScan els key ii2 fuel

/-- `pdict.get(key, default)` (source lines 164–171): walk the chain,
return the value on a key match, otherwise return the default. -/
def pdictGet (hash : Int → Int) (d : PDict) (key dflt : Int) (fuel : Nat) :
    Option (Except PyErr Int) :=
  match d.idx.get (hash key) with
  | none => some (.ok dflt)
  | some ii0 =>
    match dchainScan d.els key ii0 fuel with
    | none => none
    | some (.error e) => some (.error e)
    | some (.ok (.found _ v _)) => some (.ok v)
    | some (.ok (.ended _ _)) => some (.ok dflt)

/-- The `while` loop of `pdict.set` (source lines 188–198).  The loop body
reads `(kv, ii_next) = self._els[ii]` but never executes `ii = ii_next`,
so when the key at slot `ii` differs from `key` the loop repeats with the
same `ii`; the code after the loop (lines 199–203) is unreachable because
the loop can only exit through a `return`. -/
def pdictSetLoop (d : PDict) (key val : Int) (ii : Int) :
    Nat → Option (Except PyErr PDict)
  | 0 => none
  | fuel+1 =>
    match d.els.get ii with
    | none => some (.error (.keyError ii))
    | some (kv, iiNext) =>
      if key = kv.1 then
        if val = kv.2 then some (.ok d)
        else some (.ok ⟨d.els.assoc ii ((key, val), iiNext), d.idx, d.top⟩)
      else pdictSetLoop d key val ii fuel

/-- `pdict.set(key, val)` (source lines 175–203): the fresh-hash branch
appends at `top` and indexes the hash; the collision branch enters the
non-advancing loop above. -/
def pdictSet (hash : Int → Int) (d : PDict) (key val : Int) (fuel : Nat) :
    Option (Except PyErr PDict) :=
  let h := hash key
  match d.idx.get h with
  | none =>
    some (.ok ⟨d.els.assoc d.top ((key, val), none), d.idx.assoc h d.top, d.top + 1⟩)
  | some ii => pdictSetLoop d key val ii fuel

/-!
## The transient dict `tdict`

Attributes `_els`, `_idx`, `_top`, `_version`, `_orig`.  Structural
mutations (`__setitem__` of a fresh key, `__delitem__`, `pop`) bump
`_version`; replacing the value of an existing key does not.
-/

structure TDict where
  els : PH ((Int × Int) × Option Int)
  idx : PH Int
  top : Int
  version : Int
  orig : Option PDict
  deriving DecidableEq, Repr

/-- `pdict.transient()`: wrap the HAMTs, version 0, `orig = self`. -/
def pdictTransient (d : PDict) : TDict :=
  ⟨d.els, d.idx, d.top, 0, some d⟩

/-- `tdict.persistent()` (source lines 551–560): canonical empty when
empty, `orig` itself when set, otherwise a frozen copy. -/
def tdictPersistent (t : TDict) : PDict :=
  if t.els.len = 0 then PDict.empty
  else
    match t.orig with
    | some d => d
    | none => ⟨t.els, t.idx, t.top⟩

/-- `tdict.get(key, default)` (source lines 457–464): walk the chain and
return the value on a key match; on a miss the source executes
`raise default` — it *raises* rather than returns the default. -/
def tdictGet (hash : Int → Int) (t : TDict) (key dflt : Int) (fuel : Nat) :
    Option (Except PyErr Int) :=
  match t.idx.get (hash key) with
  | none => some (.error (.raisedValue dflt))
  | some ii0 =>
    match dchainScan t.els key ii0 fuel with
    | none => none
    | some (.error e) => some (.error e)
    | some (.ok (.found _ v _)) => some (.ok v)
    | some (.ok (.ended _ _)) => some (.error (.raisedValue dflt))

/-- `tdict.__setitem__` (source lines 406–438).  Replacing the value of an
existing key updates `_els` (and clears `_orig` when the value changed)
but does **not** bump `_version`; inserting a fresh key appends at `_top`,
patches the chain tail or the index, increments `_top`, and bumps
`_version`. -/
def tdictSetItem (hash : Int → Int) (t : TDict) (k v : Int) (fuel : Nat) :
    Option (Except PyErr TDict) :=
  let h := hash k
  match t.idx.get h with
  | none =>
    some (.ok ⟨t.els.assoc t.top ((k, v), none), t.idx.assoc h t.top,
               t.top + 1, t.version + 1, none⟩)
  | some ii0 =>
    match dchainScan t.els k ii0 fuel with
    | none => none
    | some (.error e) => some (.error e)
    | some (.ok (.found ii vOld iiNext)) =>
      if vOld ≠ v then
        some (.ok ⟨t.els.assoc ii ((k, v), iiNext), t.idx, t.top, t.version, none⟩)
      else some (.ok t)
    | some (.ok (.ended iiPrev kvPrev)) =>
      some (.ok ⟨(t.els.assoc t.top ((k, v), none)).assoc iiPrev (kvPrev, some t.top),
                 t.idx, t.top + 1, t.version + 1, none⟩)

/-- `tdict.update`-style repeated `__setitem__`, as used by `tdict.__new__`
for an iterable of pairs. -/
def tdictSetAll (hash : Int → Int) (fuel : Nat) :
    TDict → List (Int × Int) → Option (Except PyErr TDict)
  | t, [] => some (.ok t)
  | t, (k, v) :: rest =>
    match tdictSetItem hash t k v fuel with
    | none => none
    | some (.error e) => some (.error e)
    | some (.ok t') => tdictSetAll hash fuel t' rest

/-- Result of the chain walk of `tdict.__delitem__`, which also tracks the
predecessor entry `(ii_prev, kv_prev)` of the slot where the key was
found (`none` when the key sits at the chain head). -/
inductive DDelScan
  | found (prev : Option (Int × (Int × Int))) (ii : Int) (iiNext : Option Int)
  | ended
  deriving DecidableEq, Repr

/-- The chain walk of `tdict.__delitem__` (source lines 480–500): advance
`ii = ii_next` while carrying `(ii_prev, kv_prev)`; stop on a key match or
at the end of the chain.  `none` = fuel ran out. -/
def ddelScan (els : PH ((Int × Int) × Option Int)) (key : Int) :
    Int → Option (Int × (Int × Int)) → Nat → Option (Except PyErr DDelScan)
  | _, _, 0 => none
  | ii, prev, fuel+1 =>
    match els.get ii with
    | none => some (.error (.keyError ii))
    | some (kv, iiNext) =>
      if key = kv.1 then some (.ok (.found prev ii iiNext))
      else
        match iiNext with
        | none => some (.ok .ended)
        | some ii2 => ddelScan els key ii2 (some (ii, kv)) fuel

/-- `tdict.__delitem__` (source lines 473–503): on a key match, unlink the
slot — re-pointing `_idx[h]` (or deleting it when the chain empties) when
removing the chain head, or patching the predecessor's `next` otherwise —
then delete the slot from `_els`, bump `_version` and clear `_orig`; raise
`KeyError` when the key is absent. -/
def tdictDelItem (hash : Int → Int) (t : TDict) (key : Int) (fuel : Nat) :
    Option (Except PyErr TDict) :=
  let h := hash key
  match t.idx.get h with
  | none => some (.error (.keyError key))
  | some ii0 =>
    match ddelScan t.els key ii0 none fuel with
    | none => none
    | some (.error e) => some (.error e)
    | some (.ok .ended) => some (.error (.keyError key))
    | some (.ok (.found prev ii iiNext)) =>
      match prev with
      | none =>
        let idx' := match iiNext with
          | none => t.idx.dissoc h
          | some nxt => t.idx.assoc h nxt
        some (.ok ⟨t.els.dissoc ii, idx', t.top, t.version + 1, none⟩)
      | some pr =>
        some (.ok ⟨(t.els.assoc pr.1 (pr.2, iiNext)).dissoc ii,
                   t.idx, t.top, t.version + 1, none⟩)

/-- One step of `tdict.__iter__` (source lines 465–472): the iterator
captured `v0 = self._version` at creation; each yielded entry first comes
out of the element HAMT, then `_iter_key` raises the mutated-during-
iteration `RuntimeError` when `v0 < self._version`, else yields the key
`arg[1][0][0]`. -/
def tdictIterNext (t : TDict) (pos : Nat) (v0 : Int) :
    Except PyErr (Option (Int × Nat)) :=
  match t.els.get? pos with
  | none => .ok none
  | some arg =>
    if v0 < t.version then .error .mutatedDuringIteration
    else .ok (some (arg.2.1.1, pos + 1))

/-!
## The lazy layer (`pcollections/_lazy.py`)

A `lazy` cell stores a `partial` (thunk plus frozen arguments, with a lock
and a pre-built diagnostic) until the first successful call, which caches
the result in `value` and drops the partial.  In the embedding a thunk is a
piece of data `thunkFn : τ` interpreted by an explicit evaluator
`ev : τ → σ → Int × σ` over a side-effect state `σ` (any actual thunk is
recovered with `τ := σ → Int × σ` and `ev := id`); `memo = some v` models
"`partial` is `None` and `value` is `v`".  Locks are identities in this
single-mutator model; the failure path (claims restrict to thunks that
return successfully) is not modelled.
-/

structure LazyCell (τ : Type) where
  thunkFn : τ
  memo : Option Int
  deriving DecidableEq, Repr

/-- `lazy.__call__` (source lines 83–107), successful-thunk path: return
the cached value if present, else run the thunk once, cache the result and
drop the partial. -/
def lazyCall {τ σ : Type} (ev : τ → σ → Int × σ) (c : LazyCell τ) (s : σ) :
    Int × LazyCell τ × σ :=
  match c.memo with
  | some v => (v, c, s)
  | none =>
    let r := ev c.thunkFn s
    (r.1, ⟨c.thunkFn, some r.1⟩, r.2)

/-- A value slot of a lazy container: a plain value or a lazy cell. -/
inductive LVal (τ : Type)
  | plain (v : Int)
  | lz (c : LazyCell τ)
  deriving DecidableEq, Repr

/-- `llist.__getitem__` (source lines 169–171): `plist.__getitem__`, then
`el()` if the element is a lazy cell.  The cell is mutated in place in the
source; here the updated cell is written back at the same key, so the
returned list is the same list observed after the call. -/
def llistGetItem {τ σ : Type} (ev : τ → σ → Int × σ) (l : PList (LVal τ))
    (k : Int) (s : σ) : Except PyErr (Int × PList (LVal τ) × σ) :=
  let n : Int := l.phamt.len
  if k ≥ n ∨ k < -n then .error .indexError
  else
    let k' := if k < 0 then k + n else k
    match l.phamt.get (k' + l.start) with
    | none => .error (.keyError (k' + l.start))
    | some (.plain v) => .ok (v, l, s)
    | some (.lz c) =>
      let r := lazyCall ev c s
      .ok (r.1, ⟨l.phamt.assoc (k' + l.start) (.lz r.2.1), l.start⟩, r.2.2)

/-- `llist.__iter__` (source lines 166–168) in the `start ≥ 0 ∨ n + start
< 0` regime of `plist.__iter__`: yield the entries in HAMT order, calling
each lazy cell as it is encountered; cells are memoized in place. Returns
the yielded values, the observed list and the final state. -/
def phIterReify {τ σ : Type} (ev : τ → σ → Int × σ) :
    PH (LVal τ) → σ → List Int × PH (LVal τ) × σ
  | [], s => ([], [], s)
  | (k, .plain v) :: rest, s =>
    let r := phIterReify ev rest s
    (v :: r.1, (k, .plain v) :: r.2.1, r.2.2)
  | (k, .lz c) :: rest, s =>
    let t := lazyCall ev c s
    let r := phIterReify ev rest t.2.2
    (t.1 :: r.1, (k, .lz t.2.1) :: r.2.1, r.2.2)

/-- `iter(llist)` as a whole: reify every cell in iteration order. -/
def llistIter {τ σ : Type} (ev : τ → σ → Int × σ) (l : PList (LVal τ))
    (s : σ) : List Int × PList (LVal τ) × σ :=
  let r := phIterReify ev l.phamt s
  (r.1, ⟨r.2.1, l.start⟩, r.2.2)

/-- `True` when every lazy cell of the HAMT is already cached
(every slot `is_ready`). -/
def phAllReady {τ : Type} (h : PH (LVal τ)) : Bool :=
  h.all fun e =>
    match e.2 with
    | .plain _ => true
    | .lz c => c.memo.isSome

/-- The values an all-ready HAMT yields (cached values substituted). -/
def phReadyVals {τ : Type} (h : PH (LVal τ)) : List Int :=
  h.map fun e =>
    match e.2 with
    | .plain v => v
    | .lz c => c.memo.getD 0

/-- `llist.transient()` returns a `tllist` sharing the PHAMT, with
`orig = self`. -/
structure TLList (τ : Type) where
  thamt : PH (LVal τ)
  start : Int
  orig : Option (PList (LVal τ))
  deriving DecidableEq, Repr

def llistTransient {τ : Type} (l : PList (LVal τ)) : TLList τ :=
  ⟨l.phamt, l.start, some l⟩

/-- `tllist.persistent()` (source lines 241–248): `llist.empty` when
empty, `orig` itself when set, otherwise a frozen copy. -/
def tllistPersistent {τ : Type} (t : TLList τ) : PList (LVal τ) :=
  if t.thamt.len = 0 then PList.empty
  else
    match t.orig with
    | none => ⟨t.thamt, t.start⟩
    | some l => l

/-!
## The lazy dict `ldict` and its transient `tldict`

`ldict` has the `pdict` shape with possibly-lazy values; `tldict` inherits
the `tdict` slots (`_els`, `_idx`, `_top`, `_version`, `_orig`).  Values
are kept generic in `α` here because the two claims touching these types
never inspect a value.
-/

structure LDict (α : Type) where
  els : PH ((Int × α) × Option Int)
  idx : PH Int
  top : Int
  deriving DecidableEq, Repr

structure TLDict (α : Type) where
  els : PH ((Int × α) × Option Int)
  idx : PH Int
  top : Int
  version : Int
  orig : Option (LDict α)
  deriving DecidableEq, Repr

/-- `ldict.transient()` (source line 363–364): wrap the HAMTs in THAMTs,
`orig = self`. -/
def ldictTransient {α : Type} (d : LDict α) : TLDict α :=
  ⟨d.els, d.idx, d.top, 0, some d⟩

/-- `tldict.persistent()` (source lines 398–405).  The body begins with
`if len(self._thamt) == 0` and later reads `self._start`, but a `tldict`
only has the inherited `tdict` attributes (`_els`, `_idx`, `_top`,
`_version`, `_orig`); no `_thamt` or `_start` exists, so the very first
expression raises `AttributeError` on every call. -/
def tldictPersistent {α : Type} (_t : TLDict α) : Except PyErr (LDict α) :=
  .error .attributeError

/-- `tldict.pop` (source lines 410–411): `return unlazy(self.pop(*args))`.
`self.pop` resolves to `tldict.pop` itself, so the method recurses before
`unlazy` is ever applied; the recursive result (to which `unlazy` would be
applied) never materializes.  `none` = still recursing after `fuel`
nested calls. -/
def tldictPop {α : Type} (t : TLDict α) (key : Int) : Nat → Option α
  | 0 => none
  | fuel+1 => tldictPop t key fuel

/-!
## Bulk constructors (`__new__`) for claim C10

Each constructor's argument is one of: a transient of the paired type, a
value of the class itself, or a plain iterable; the branches mirror the
source dispatch order.  Keyword arguments are absent in all three calls
the claim makes.
-/

inductive PListArg (α : Type)
  | fromTList (t : TList α)
  | fromPList (p : PList α)
  | fromIter (xs : List α)

/-- `plist.__new__` (source lines 26–57): a `tlist` argument is frozen (or
the canonical empty); an argument that is already an instance of the class
is returned as-is, with no copying; an iterable is loaded into a fresh
THAMT with origin 0. -/
def plistNew {α : Type} : PListArg α → PList α
  | .fromTList t =>
    if t.thamt.len = 0 then PList.empty else ⟨t.thamt, t.start⟩
  | .fromPList p => p
  | .fromIter xs =>
    let ph := xs.enum.foldl (fun th iv => PH.assoc th (iv.1 : Int) iv.2) ([] : PH α)
    if PH.len ph = 0 then PList.empty else ⟨ph, 0⟩

inductive PsetArg
  | fromTset (t : Tset)
  | fromPset (s : Pset)
  | fromIter (xs : List Int)

/-- `pset.__new__` (source lines 38–60): a `tset` argument is frozen (or
the canonical empty); a `pset` argument is returned as-is; anything else
is routed through `tset(arg).persistent()`. -/
def psetNew (hash : Int → Int) (fuel : Nat) : PsetArg → Option (Except PyErr Pset)
  | .fromTset t =>
    if t.els.len = 0 then some (.ok Pset.empty)
    else some (.ok ⟨t.els, t.idx, t.top⟩)
  | .fromPset s => some (.ok s)
  | .fromIter xs =>
    match tsetAddAll hash fuel ⟨[], [], 0, none⟩ xs with
    | none => none
    | some (.error e) => some (.error e)
    | some (.ok t) => some (.ok (tsetPersistent t))

inductive PDictArg
  | fromTDict (t : TDict)
  | fromPDict (d : PDict)
  | fromItems (xs : List (Int × Int))

/-- `pdict.__new__` (source lines 101–138), no keyword arguments: a
`tdict` argument is frozen (or the canonical empty); an argument that is
an instance of the class is returned as-is; an iterable of pairs is routed
through `tdict` and then frozen field-by-field (note: *without* the
canonical-empty shortcut of `tdict.persistent`). -/
def pdictNew (hash : Int → Int) (fuel : Nat) : PDictArg → Option (Except PyErr PDict)
  | .fromTDict t =>
    if t.els.len = 0 then some (.ok PDict.empty)
    else some (.ok ⟨t.els, t.idx, t.top⟩)
  | .fromPDict d => some (.ok d)
  | .fromItems xs =>
    match tdictSetAll hash fuel ⟨[], [], 0, 0, none⟩ xs with
    | none => none
    | some (.error e) => some (.error e)
    | some (.ok t) => some (.ok ⟨t.els, t.idx, t.top⟩)

/-!
## The PHAMT sortedness invariant and concrete instances

Every PHAMT reachable through the library is built from the empty map by
`assoc` / `dissoc`, so its entries are strictly ascending in the iteration
order; some universal theorems carry this invariant as a hypothesis.
-/

/-- Keys of the association list strictly ascend in PHAMT order. -/
def PHSorted {α : Type} (h : PH α) : Prop :=
  List.Pairwise (fun a b => keyLt a.1 b.1 = true) h

instance {α : Type} (h : PH α) : Decidable (PHSorted h) := by
  unfold PHSorted
  infer_instance

/-- `hash` with a total collision (every value hashes to `0`). -/
def hashZero : Int → Int := fun _ => 0

/-- Python's `hash` restricted to small non-negative ints (`hash(i) = i`). -/
def hashId : Int → Int := fun v => v

/-- The list `plist(range(10))` of spec scenario 1. -/
def pTen : PList Int := PList.ofRange 10

/-- What `pTen.delete(2)` evaluates to: values `[0,1,3,…,9]` at keys
`1..9`, start `1` (the left side was shifted). -/
def qTen : PList Int :=
  ⟨[(1, 0), (2, 1), (3, 3), (4, 4), (5, 5), (6, 6), (7, 7), (8, 8), (9, 9)], 1⟩

/-- What `pTen.delete(7)` evaluates to: values `[0,…,6,8,9]` at keys
`0..8`, start `0` (the right side was shifted). -/
def rTen : PList Int :=
  ⟨[(0, 0), (1, 1), (2, 2), (3, 3), (4, 4), (5, 5), (6, 6), (7, 8), (8, 9)], 0⟩

/-- The list `plist(range(3))` used for the slice claim. -/
def pThree : PList Int := PList.ofRange 3

/-- `pdict({0: 5})`, built by `set` on the empty pdict. -/
def pdictC1 : PDict := ⟨[(0, ((0, 5), none))], [(0, 0)], 1⟩

/-- `pset({0})`, built by `add` on the empty pset. -/
def psetC2 : Pset := ⟨[(0, (0, none))], [(0, 0)], 1⟩

/-- The transient set of `0..9` from spec scenario 3. -/
def tsetS : Tset :=
  ⟨(rangeList 0 10).map (fun i => (i, (i, none))),
   (rangeList 0 10).map (fun i => (i, i)), 10, none⟩

/-- `tsetS` after `add(10)` (slot 10, chain head for hash 10). -/
def tsetS10 : Tset :=
  ⟨(rangeList 0 11).map (fun i => (i, (i, none))),
   (rangeList 0 11).map (fun i => (i, i)), 11, none⟩

/-- A transient dict `{0: 0, 1: 1, 2: 2}` built by three inserts
(so `_version = 3`). -/
def tdS : TDict :=
  ⟨[(0, ((0, 0), none)), (1, ((1, 1), none)), (2, ((2, 2), none))],
   [(0, 0), (1, 1), (2, 2)], 3, 3, none⟩

/-- `tdS` after the structural insert `t[10] = 10`: slot 3 appended,
version bumped to 4. -/
def tdSb : TDict :=
  ⟨[(0, ((0, 0), none)), (1, ((1, 1), none)), (2, ((2, 2), none)),
    (3, ((10, 10), none))],
   [(0, 0), (1, 1), (2, 2), (10, 3)], 4, 4, none⟩

/-- `tdS` after the value overwrite `t[1] = 99`: same keys, same version. -/
def tdSc : TDict :=
  ⟨[(0, ((0, 0), none)), (1, ((1, 99), none)), (2, ((2, 2), none))],
   [(0, 0), (1, 1), (2, 2)], 3, 3, none⟩

/-- `tdS` after the structural removal `del t[1]`: slot 1 and its hash
entry gone, version bumped to 4. -/
def tdSd : TDict :=
  ⟨[(0, ((0, 0), none)), (2, ((2, 2), none))], [(0, 0), (2, 2)], 3, 4, none⟩

/-- The counter-effect thunk evaluator of spec scenario 4: a thunk is the
amount it adds to the counter, and it returns the updated counter. -/
def evCounter : Int → Int → Int × Int := fun amt s => (s + amt, s + amt)

/-- The lazy list `llist([lazy(counter, 1), lazy(counter, 10)])` of spec
scenario 4, both cells pending. -/
def lC7 : PList (LVal Int) := ⟨[(0, .lz ⟨1, none⟩), (1, .lz ⟨10, none⟩)], 0⟩

/-- `lC7` observed after `l[0]` has been read once (first cell cached). -/
def lC7a : PList (LVal Int) :=
  ⟨[(0, .lz ⟨1, some 1⟩), (1, .lz ⟨10, none⟩)], 0⟩

/-- `lC7` observed after both cells have been read (both cached). -/
def lC7b : PList (LVal Int) :=
  ⟨[(0, .lz ⟨1, some 1⟩), (1, .lz ⟨10, some 11⟩)], 0⟩

/-!
## Helper lemmas about the PHAMT embedding
-/

theorem keyLt_irrefl (a : Int) : keyLt a a = false := by
  unfold keyLt
  split_ifs <;> simp

theorem keyLt_trans {a b c : Int} (h1 : keyLt a b = true)
    (h2 : keyLt b c = true) : keyLt a c = true := by
  unfold keyLt at h1 h2 ⊢
  split_ifs at h1 h2 ⊢ <;> simp_all <;> omega

theorem ne_of_keyLt {a b : Int} (h : keyLt a b = true) : a ≠ b := by
  intro he
  rw [he, keyLt_irrefl] at h
  exact Bool.false_ne_true h

theorem keyLt_of_ne_of_not_lt {a b : Int} (hne : a ≠ b)
    (h : keyLt a b = false) : keyLt b a = true := by
  unfold keyLt at h ⊢
  split_ifs at h ⊢ <;> simp_all <;> omega

theorem PH.get_eq_none {α : Type} (h : PH α) (k : Int)
    (hk : ∀ e ∈ h, k ≠ e.1) : h.get k = none := by
  induction h with
  | nil => rfl
  | cons e rest ih =>
    obtain ⟨k1, v1⟩ := e
    have h1 : k ≠ k1 := hk (k1, v1) (by simp)
    simp only [PH.get, h1, if_false, if_neg h1]
    exact ih fun e he => hk e (List.mem_cons_of_mem _ he)

theorem PH.get_assoc_self {α : Type} (h : PH α) (k : Int) (v : α) :
    (h.assoc k v).get k = some v := by
  induction h with
  | nil => simp [PH.assoc, PH.get]
  | cons e rest ih =>
    obtain ⟨k1, v1⟩ := e
    by_cases h1 : k = k1
    · simp [PH.assoc, h1, PH.get]
    · by_cases h2 : keyLt k k1 = true
      · simp [PH.assoc, h1, h2, PH.get]
      · simp [PH.assoc, h1, h2, PH.get, ih]

theorem PH.mem_assoc {α : Type} {h : PH α} {k : Int} {v : α} {e : Int × α}
    (he : e ∈ h.assoc k v) : e ∈ h ∨ e.1 = k := by
  induction h with
  | nil =>
    simp only [PH.assoc, List.mem_singleton] at he
    right
    rw [he]
  | cons e1 rest ih =>
    obtain ⟨k1, v1⟩ := e1
    by_cases h1 : k = k1
    · simp only [PH.assoc, if_pos h1, List.mem_cons] at he
      rcases he with he | he
      · right; rw [he, h1]
      · exact Or.inl (List.mem_cons_of_mem _ he)
    · by_cases h2 : keyLt k k1 = true
      · simp only [PH.assoc, if_neg h1, if_pos h2, List.mem_cons] at he
        rcases he with he | he | he
        · right; rw [he]
        · exact Or.inl (by rw [he]; exact List.mem_cons_self _ _)
        · exact Or.inl (List.mem_cons_of_mem _ he)
      · simp only [PH.assoc, if_neg h1, if_neg h2, List.mem_cons] at he
        rcases he with he | he
        · exact Or.inl (by rw [he]; exact List.mem_cons_self _ _)
        · rcases ih he with h' | h'
          · exact Or.inl (List.mem_cons_of_mem _ h')
          · exact Or.inr h'

theorem PH.length_assoc {α : Type} {h : PH α} {k : Int} (v : α)
    (hs : PHSorted h) (hk : h.get k ≠ none) :
    (h.assoc k v).length = h.length := by
  induction h with
  | nil => exact absurd rfl hk
  | cons e rest ih =>
    obtain ⟨k1, v1⟩ := e
    rw [PHSorted, List.pairwise_cons] at hs
    by_cases h1 : k = k1
    · simp [PH.assoc, h1]
    · by_cases h2 : keyLt k k1 = true
      · exfalso
        apply hk
        apply PH.get_eq_none
        intro e he
        rcases List.mem_cons.mp he with he | he
        · rw [he]; exact ne_of_keyLt h2
        · exact ne_of_keyLt (keyLt_trans h2 (hs.1 e he))
      · simp only [PH.assoc, if_neg h1, if_neg h2, List.length_cons]
        rw [ih hs.2 (by simpa [PH.get, h1] using hk)]

theorem PH.assoc_eq_self {α : Type} {h : PH α} {k : Int} {v : α}
    (hs : PHSorted h) (hk : h.get k = some v) : h.assoc k v = h := by
  induction h with
  | nil => exact absurd hk (by simp [PH.get])
  | cons e rest ih =>
    obtain ⟨k1, v1⟩ := e
    rw [PHSorted, List.pairwise_cons] at hs
    by_cases h1 : k = k1
    · have hv : v1 = v := by simpa [PH.get, h1] using hk
      simp [PH.assoc, h1, hv]
    · by_cases h2 : keyLt k k1 = true
      · exfalso
        have : PH.get ((k1, v1) :: rest) k = none := by
          apply PH.get_eq_none
          intro e he
          rcases List.mem_cons.mp he with he | he
          · rw [he]; exact ne_of_keyLt h2
          · exact ne_of_keyLt (keyLt_trans h2 (hs.1 e he))
        rw [this] at hk
        exact Option.noConfusion hk
      · simp only [PH.assoc, if_neg h1, if_neg h2]
        rw [ih hs.2 (by simpa [PH.get, h1] using hk)]

theorem PH.sorted_assoc {α : Type} {h : PH α} (k : Int) (v : α)
    (hs : PHSorted h) : PHSorted (h.assoc k v) := by
  induction h with
  | nil => simp [PH.assoc, PHSorted]
  | cons e rest ih =>
    obtain ⟨k1, v1⟩ := e
    rw [PHSorted, List.pairwise_cons] at hs
    by_cases h1 : k = k1
    · rw [PHSorted]
      simp only [PH.assoc, if_pos h1, List.pairwise_cons]
      exact ⟨fun e he => by rw [h1]; exact hs.1 e he, hs.2⟩
    · by_cases h2 : keyLt k k1 = true
      · rw [PHSorted]
        simp only [PH.assoc, if_neg h1, if_pos h2, List.pairwise_cons]
        refine ⟨fun e he => ?_, hs.1, hs.2⟩
        rcases List.mem_cons.mp he with he | he
        · rw [he]; exact h2
        · exact keyLt_trans h2 (hs.1 e he)
      · have hk1 : keyLt k1 k = true :=
          keyLt_of_ne_of_not_lt h1 (Bool.not_eq_true _ ▸ h2)
        rw [PHSorted]
        simp only [PH.assoc, if_neg h1, if_neg h2, List.pairwise_cons]
        constructor
        · intro e he
          rcases PH.mem_assoc he with h' | h'
          · exact hs.1 e h'
          · rw [h']; exact hk1
        · exact ih hs.2

theorem lazyCall_memo {τ σ : Type} (ev : τ → σ → Int × σ) (c : LazyCell τ)
    (s : σ) : (lazyCall ev c s).2.1.memo = some (lazyCall ev c s).1 := by
  obtain ⟨t, m⟩ := c
  cases m <;> rfl

theorem phIterReify_allReady {τ σ : Type} (ev : τ → σ → Int × σ)
    (h : PH (LVal τ)) (s : σ) (hr : phAllReady h = true) :
    phIterReify ev h s = (phReadyVals h, h, s) := by
  induction h generalizing s with
  | nil => rfl
  | cons e rest ih =>
    obtain ⟨k, x⟩ := e
    rw [phAllReady, List.all_cons, Bool.and_eq_true] at hr
    cases x with
    | plain v =>
      simp only [phIterReify, phReadyVals, List.map_cons]
      rw [ih s hr.2]
      rfl
    | lz c =>
      obtain ⟨t, m⟩ := c
      obtain ⟨w, hm⟩ := Option.isSome_iff_exists.mp hr.1
      subst hm
      simp only [phIterReify, lazyCall]
      rw [ih s hr.2]
      rfl

/-- Evaluating a cached lazy cell returns the cached value and changes
nothing (the `partial is None` fast path of `lazy.__call__`). -/
theorem lazyCall_of_memo_some {τ σ : Type} (ev : τ → σ → Int × σ)
    (c : LazyCell τ) (s : σ) (v : Int) (h : c.memo = some v) :
    lazyCall ev c s = (v, c, s) := by
  obtain ⟨t, m⟩ := c
  cases h
  rfl

/-!
## The claims
-/

/-- C1: the claim states that for every persistent mapping `p`, key `k` and
value `v`, `p.set(k, v).get(k) == v`, in particular when another key with
the same hash as `k` is already present (the chain is walked and the new
entry appended at `top`).  In fact the collision branch of `pdict.set`
(source lines 188–198) never advances `ii`, so on `pdict({0: 5})` under a
total-collision hash, `set(1, 9)` loops forever: the first conjunct builds
the one-entry dict, the second shows the loop is still running after any
number of iterations. -/
theorem pdict_set_collision_diverges :
    pdictSet hashZero PDict.empty 0 5 1 = some (.ok pdictC1) ∧
    ∀ fuel : Nat, pdictSet hashZero pdictC1 1 9 fuel = none := by
  constructor
  · decide
  · intro fuel
    show pdictSetLoop pdictC1 1 9 0 fuel = none
    induction fuel with
    | zero => rfl
    | succ n ih =>
      rw [pdictSetLoop]
      simpa [pdictC1, PH.get] using ih

/-- C2: the claim states that adding a colliding-but-absent element to a
pset appends it at the tail of the collision chain.  In fact the collision
branch of `pset.add` never assigns `new_idx`, so on `pset({0})` under a
total-collision hash, `add(1)` raises `UnboundLocalError` instead of
returning the two-element set. -/
theorem pset_add_collision_unbound_local :
    psetAdd hashZero Pset.empty 0 9 = some (.ok psetC2) ∧
    psetAdd hashZero psetC2 1 9 = some (.error .unboundLocalError) := by
  decide

/-- C3: the claim states that `p.transient().persistent()` equals `p` (and
is pointer-identical when unmutated) for all five container kinds.  The
plain list, set, dict and the lazy list indeed hand back the stored `orig`
(the original object) whenever the container is non-empty; but
`tldict.persistent` reads the nonexistent `_thamt` attribute, so the lazy
mapping's round trip raises `AttributeError` for every `d`. -/
theorem transient_persistent_roundtrip :
    (∀ (α : Type) (p : PList α), p.phamt ≠ [] →
        tlistPersistent (plistTransient p) = p) ∧
    (∀ s : Pset, s.els ≠ [] → tsetPersistent (psetTransient s) = s) ∧
    (∀ d : PDict, d.els ≠ [] → tdictPersistent (pdictTransient d) = d) ∧
    (∀ (τ : Type) (l : PList (LVal τ)), l.phamt ≠ [] →
        tllistPersistent (llistTransient l) = l) ∧
    (∀ (α : Type) (d : LDict α),
        tldictPersistent (ldictTransient d) = .error .attributeError) := by
  refine ⟨?_, ?_, ?_, ?_, ?_⟩
  · intro α p hp
    simp [tlistPersistent, plistTransient, PH.len, List.length_eq_zero, hp]
  · intro s hs
    simp [tsetPersistent, psetTransient, PH.len, List.length_eq_zero, hs]
  · intro d hd
    simp [tdictPersistent, pdictTransient, PH.len, List.length_eq_zero, hd]
  · intro τ l hl
    simp [tllistPersistent, llistTransient, PH.len, List.length_eq_zero, hl]
  · intro α d
    rfl

/-- Concrete instantiation of the round-trip theorem at one-element
containers (and an arbitrary lazy dict). -/
theorem transient_persistent_roundtrip_witness :
    tlistPersistent (plistTransient (⟨[(0, 7)], 0⟩ : PList Int)) = ⟨[(0, 7)], 0⟩ ∧
    tsetPersistent (psetTransient ⟨[(3, (3, none))], [(3, 3)], 4⟩) =
      ⟨[(3, (3, none))], [(3, 3)], 4⟩ ∧
    tdictPersistent (pdictTransient ⟨[(0, ((2, 4), none))], [(2, 0)], 1⟩) =
      ⟨[(0, ((2, 4), none))], [(2, 0)], 1⟩ ∧
    tllistPersistent (llistTransient (⟨[(0, .plain 7)], 0⟩ : PList (LVal Int))) =
      ⟨[(0, .plain 7)], 0⟩ ∧
    tldictPersistent (ldictTransient (⟨[(0, ((0, 1), none))], [(0, 0)], 1⟩ : LDict Int)) =
      .error .attributeError :=
  ⟨transient_persistent_roundtrip.1 Int _ (by decide),
   transient_persistent_roundtrip.2.1 _ (by decide),
   transient_persistent_roundtrip.2.2.1 _ (by decide),
   transient_persistent_roundtrip.2.2.2.1 Int _ (by decide),
   transient_persistent_roundtrip.2.2.2.2 Int _⟩

/-- C4 (counterexample): the claim asserts that `p.delete(2)` keeps
`p.start` (calling it a right-side shift) and that `p.delete(7)` yields
start `p.start + 1`.  The code does the opposite on both counts. -/
theorem plist_delete_start_counterexample :
    pTen.delete 2 = .ok qTen ∧ qTen.start ≠ pTen.start ∧
    pTen.delete 7 = .ok rTen ∧ rTen.start ≠ pTen.start + 1 := by
  decide

/-- C4 (amended): for `p` holding `0..9`, `q = p.delete(2)` equals
`[0,1,3,4,5,6,7,8,9]` with `q.start = p.start + 1` (the shorter *left*
side is shifted, because `n - i > i`), while `r = p.delete(7)` keeps
`r.start = p.start` (right-side shift, because `n - i ≤ i`). -/
theorem plist_delete_reindex_choice :
    pTen.delete 2 = .ok qTen ∧
    qTen.toList = [0, 1, 3, 4, 5, 6, 7, 8, 9] ∧
    qTen.start = pTen.start + 1 ∧
    pTen.delete 7 = .ok rTen ∧
    rTen.toList = [0, 1, 2, 3, 4, 5, 6, 8, 9] ∧
    rTen.start = pTen.start := by
  decide

/-- C6: the claim states that `tldict.pop(k)` terminates, removes `k` and
returns the reified value.  The source method calls itself
(`return unlazy(self.pop(*args))`), so for every transient lazy dict, key
and recursion depth the call has not returned. -/
theorem tldict_pop_diverges :
    ∀ (α : Type) (t : TLDict α) (key : Int) (fuel : Nat),
      tldictPop t key fuel = none := by
  intro α t key fuel
  induction fuel with
  | zero => rfl
  | succ n ih =>
    rw [tldictPop]
    exact ih

/-- C8: the claim states that `t.get(k, d)` on a transient mapping returns
`d` when `k` is absent, mirroring the persistent `get`.  In fact
`tdict.get` executes `raise default` on a miss (modelled as the
`raisedValue d` error), while `pdict.get` returns the default. -/
theorem tdict_get_raises_default :
    (∀ (hash : Int → Int) (t : TDict) (k d : Int) (fuel : Nat),
        PH.get t.idx (hash k) = none →
        tdictGet hash t k d fuel = some (.error (.raisedValue d))) ∧
    (∀ (hash : Int → Int) (p : PDict) (k d : Int) (fuel : Nat),
        PH.get p.idx (hash k) = none →
        pdictGet hash p k d fuel = some (.ok d)) := by
  constructor
  · intro hash t k d fuel h
    simp [tdictGet, h]
  · intro hash p k d fuel h
    simp [pdictGet, h]

/-- Concrete instantiation: `get(5, 7)` on an empty transient dict raises
(carrying `7`), while on the empty persistent dict it returns `7`. -/
theorem tdict_get_raises_default_witness :
    tdictGet hashZero ⟨[], [], 0, 0, none⟩ 5 7 3 = some (.error (.raisedValue 7)) ∧
    pdictGet hashZero PDict.empty 5 7 3 = some (.ok 7) :=
  ⟨tdict_get_raises_default.1 hashZero ⟨[], [], 0, 0, none⟩ 5 7 3 rfl,
   tdict_get_raises_default.2 hashZero PDict.empty 5 7 3 rfl⟩

/-- C9: the claim states that slicing follows the conventional array-slice
rules, in particular `p[:0]` is empty and `p[::-1]` reverses.  Because the
source defaults the components through Python's `or` (`k.stop or n`
replaces an explicit `0` stop by `n`) and uses the positive-step defaults
for every step, on `p = plist([0,1,2])` the slice `[:0]` returns the whole
list and `[::-1]` returns the empty list instead of the reversal. -/
theorem plist_slice_conventional_counterexamples :
    PList.getSlice pThree none (some 0) none =
      .ok (⟨[(0, 0), (1, 1), (2, 2)], 0⟩ : PList Int) ∧
    PList.getSlice pThree none (some 0) none ≠ .ok (PList.empty : PList Int) ∧
    PList.getSlice pThree none none (some (-1)) = .ok (PList.empty : PList Int) ∧
    PList.getSlice pThree none none (some (-1)) ≠
      .ok (⟨[(0, 2), (1, 1), (2, 0)], 0⟩ : PList Int) := by
  decide

/-- C10: constructing a persistent container from a value of the same type
returns that argument itself (the `isinstance(arg, cls): return arg`
branches), with no copying, for `plist`, `pset` and `pdict`. -/
theorem constructor_returns_argument :
    (∀ (α : Type) (p : PList α), plistNew (.fromPList p) = p) ∧
    (∀ (hash : Int → Int) (fuel : Nat) (s : Pset),
        psetNew hash fuel (.fromPset s) = some (.ok s)) ∧
    (∀ (hash : Int → Int) (fuel : Nat) (d : PDict),
        pdictNew hash fuel (.fromPDict d) = some (.ok d)) :=
  ⟨fun _ _ => rfl, fun _ _ _ => rfl, fun _ _ _ => rfl⟩

/-- C5 (counterexample): the claim states that an iterator of a *transient
set* created before `add!` fails with the mutated-during-iteration error
at its next step.  Running the spec's own scenario — `t` holding `0..9`,
one `next`, then `add(10)`, then `next` — the second step yields the
element `1`; no error is possible because `tset` has no version counter
and its iterator performs no check. -/
theorem tset_iter_after_add_yields :
    tsetAddAll hashId 20 ⟨[], [], 0, none⟩ (rangeList 0 10) = some (.ok tsetS) ∧
    tsetIterNext tsetS 0 = .ok (some (0, 1)) ∧
    tsetAdd hashId tsetS 10 20 = some (.ok tsetS10) ∧
    tsetIterNext tsetS10 1 = .ok (some (1, 2)) ∧
    tsetIterNext tsetS10 1 ≠ .error .mutatedDuringIteration := by
  decide

/-- C5 (amended): iterators of *transient mappings* fail with the
mutated-during-iteration error at their next step once the version counter
has been bumped; transient-set iteration can never produce that error (no
version counter exists in `tset`); every successful key removal bumps the
version; and on the spec scenario a structural insert and a structural
removal each make the pending iterator error at its next step, while
overwriting an existing key with a new value lets it proceed. -/
theorem tdict_iter_version_check :
    (∀ (t : TDict) (pos : Nat) (v0 : Int) (e : Int × ((Int × Int) × Option Int)),
        t.els.get? pos = some e → v0 < t.version →
        tdictIterNext t pos v0 = .error .mutatedDuringIteration) ∧
    (∀ (t : Tset) (pos : Nat),
        tsetIterNext t pos ≠ .error .mutatedDuringIteration) ∧
    (∀ (hash : Int → Int) (t : TDict) (key : Int) (fuel : Nat) (t' : TDict),
        tdictDelItem hash t key fuel = some (.ok t') →
        t'.version = t.version + 1) ∧
    tdictSetAll hashId 20 ⟨[], [], 0, 0, none⟩ [(0, 0), (1, 1), (2, 2)] =
      some (.ok tdS) ∧
    tdictIterNext tdS 0 3 = .ok (some (0, 1)) ∧
    tdictSetItem hashId tdS 10 10 20 = some (.ok tdSb) ∧
    tdictIterNext tdSb 1 3 = .error .mutatedDuringIteration ∧
    tdictDelItem hashId tdS 1 20 = some (.ok tdSd) ∧
    tdictIterNext tdSd 1 3 = .error .mutatedDuringIteration ∧
    tdictSetItem hashId tdS 1 99 20 = some (.ok tdSc) ∧
    tdictIterNext tdSc 1 3 = .ok (some (1, 2)) := by
  refine ⟨?_, ?_, ?_, by decide, by decide, by decide, by decide, by decide,
    by decide, by decide, by decide⟩
  · intro t pos v0 e he hv
    unfold tdictIterNext
    rw [he]
    dsimp only
    rw [if_pos hv]
  · intro t pos h
    unfold tsetIterNext at h
    cases hg : t.els.get? pos <;> rw [hg] at h <;> exact Except.noConfusion h
  · intro hash t key fuel t' hdel
    unfold tdictDelItem at hdel
    dsimp only at hdel
    cases hidx : PH.get t.idx (hash key) with
    | none =>
      rw [hidx] at hdel
      exact absurd hdel (by simp)
    | some ii0 =>
      rw [hidx] at hdel
      try dsimp only at hdel
      cases hscan : ddelScan t.els key ii0 none fuel with
      | none =>
        rw [hscan] at hdel
        exact absurd hdel (by simp)
      | some r =>
        rw [hscan] at hdel
        try dsimp only at hdel
        cases r with
        | error e => exact absurd hdel (by simp)
        | ok sc =>
          cases sc with
          | ended => exact absurd hdel (by simp)
          | found prev ii iiNext =>
            cases prev with
            | none =>
              simp only [Option.some.injEq, Except.ok.injEq] at hdel
              rw [← hdel]
            | some pr =>
              simp only [Option.some.injEq, Except.ok.injEq] at hdel
              rw [← hdel]

/-- Concrete instantiation of the version-check theorem: the structurally
mutated dict errors at the next step, removing a key bumps the version,
and the mutated set cannot error. -/
theorem tdict_iter_version_check_witness :
    tdictIterNext tdSb 1 3 = .error .mutatedDuringIteration ∧
    tdSd.version = tdS.version + 1 ∧
    tsetIterNext tsetS10 1 ≠ .error .mutatedDuringIteration :=
  ⟨tdict_iter_version_check.1 tdSb 1 3 (1, ((1, 1), none)) (by decide) (by decide),
   tdict_iter_version_check.2.2.1 hashId tdS 1 20 tdSd (by decide),
   tdict_iter_version_check.2.1 tsetS10 1⟩

/-- C7: a lazy cell with a successfully-returning thunk yields the same
value on every invocation and runs the thunk exactly once across all of
them.  Conjuncts: (1) a pending cell's first call runs the thunk, caches
the result and returns it; (2) a cached cell's call returns the cached
value with no state change at all (the thunk is not run again); (3) the
same holds through a lazy list's `get`: once a read has succeeded,
repeating it returns the same value, the same list state and the same
side-effect state; (4) iterating a lazy list whose cells are all cached
yields the cached values and changes nothing. -/
theorem lazy_once_only :
    (∀ (τ σ : Type) (ev : τ → σ → Int × σ) (c : LazyCell τ) (s : σ),
        c.memo = none →
        lazyCall ev c s =
          ((ev c.thunkFn s).1, ⟨c.thunkFn, some (ev c.thunkFn s).1⟩,
           (ev c.thunkFn s).2)) ∧
    (∀ (τ σ : Type) (ev : τ → σ → Int × σ) (c : LazyCell τ) (s : σ) (v : Int),
        c.memo = some v → lazyCall ev c s = (v, c, s)) ∧
    (∀ (τ σ : Type) (ev : τ → σ → Int × σ) (l : PList (LVal τ)) (k : Int)
        (s : σ) (v : Int) (l' : PList (LVal τ)) (s' : σ),
        PHSorted l.phamt →
        llistGetItem ev l k s = .ok (v, l', s') →
        llistGetItem ev l' k s' = .ok (v, l', s')) ∧
    (∀ (τ σ : Type) (ev : τ → σ → Int × σ) (l : PList (LVal τ)) (s : σ),
        phAllReady l.phamt = true →
        llistIter ev l s = (phReadyVals l.phamt, l, s)) := by
  refine ⟨?_, ?_, ?_, ?_⟩
  · intro τ σ ev c s hm
    obtain ⟨t, m⟩ := c
    cases hm
    rfl
  · intro τ σ ev c s v hm
    exact lazyCall_of_memo_some ev c s v hm
  · intro τ σ ev l k s v l' s' hsort hget
    unfold llistGetItem at hget
    by_cases hb : k ≥ (PH.len l.phamt : Int) ∨ k < -(PH.len l.phamt : Int)
    · rw [if_pos hb] at hget
      exact absurd hget (by simp)
    · rw [if_neg hb] at hget
      dsimp only at hget
      cases hgot : PH.get l.phamt
          ((if k < 0 then k + (PH.len l.phamt : Int) else k) + l.start) with
      | none =>
        rw [hgot] at hget
        exact absurd hget (by simp)
      | some x =>
        rw [hgot] at hget
        cases x with
        | plain w =>
          simp only [Except.ok.injEq, Prod.mk.injEq] at hget
          obtain ⟨rfl, rfl, rfl⟩ := hget
          unfold llistGetItem
          rw [if_neg hb]
          dsimp only
          rw [hgot]
        | lz c =>
          simp only [Except.ok.injEq, Prod.mk.injEq] at hget
          obtain ⟨hv, hl, hs⟩ := hget
          subst hv
          subst hl
          subst hs
          unfold llistGetItem
          have hlen : PH.len (PH.assoc l.phamt
              ((if k < 0 then k + (PH.len l.phamt : Int) else k) + l.start)
              (.lz (lazyCall ev c s).2.1)) = PH.len l.phamt :=
            PH.length_assoc _ hsort (by rw [hgot]; exact fun h => Option.noConfusion h)
          dsimp only
          rw [hlen, if_neg hb, PH.get_assoc_self]
          dsimp only
          rw [lazyCall_of_memo_some ev _ _ _ (lazyCall_memo ev c s)]
          rw [PH.assoc_eq_self (PH.sorted_assoc _ _ hsort) (PH.get_assoc_self _ _ _)]
  · intro τ σ ev l s hr
    unfold llistIter
    rw [phIterReify_allReady ev l.phamt s hr]

/-- Concrete instantiation of the once-only theorem on spec scenario 4:
the first read of `l[0]` runs the counter thunk (counter becomes 1), a
cached cell returns its value with the counter untouched, the second
`l[0]` through the list is a pure replay, and iterating the fully-cached
list yields `[1, 11]` without moving the counter. -/
theorem lazy_once_only_witness :
    lazyCall evCounter ⟨1, none⟩ 0 = (1, ⟨1, some 1⟩, 1) ∧
    lazyCall evCounter ⟨1, some 1⟩ 5 = (1, ⟨1, some 1⟩, 5) ∧
    llistGetItem evCounter lC7a 0 1 = .ok (1, lC7a, 1) ∧
    llistIter evCounter lC7b 11 = ([1, 11], lC7b, 11) :=
  ⟨lazy_once_only.1 Int Int evCounter ⟨1, none⟩ 0 rfl,
   lazy_once_only.2.1 Int Int evCounter ⟨1, some 1⟩ 5 1 rfl,
   lazy_once_only.2.2.1 Int Int evCounter lC7 0 0 1 lC7a 1 (by decide) (by decide),
   lazy_once_only.2.2.2 Int Int evCounter lC7b 11 (by decide)⟩
